import Mathlib

/-!
Verification of the RSS feeder orchestration layer.

This file gives a shallow embedding of the core data model and operations of
the repository (feed fetching and aggregation, normalization, recency-window
filtering, deduplication, retry execution, grouping/classification, scheduler
tick handling) and proves or refutes the specified properties about them.

Modelling conventions:
- JavaScript timestamps are `Int` milliseconds.  An invalid JS `Date`
  (`new Date(unparsableString)`) is modelled as `Option.none`; every
  comparison against it is `false`, matching NaN comparison semantics.
- Host functionality (the JS date parser, the HTML-stripping regex) is passed
  in as explicit function parameters.
- JS string falsiness (`x || y`) is modelled by `jsOrStr` on `Option String`,
  where `none` is `undefined` and the empty string is falsy.
- JS objects used as string-keyed dictionaries preserve insertion order for
  the keys that occur here; they are modelled as association lists
  `List (String × _)` updated by `upsert`.
- Asynchronous operations are modelled by their results; an operation under
  retry is a function from the attempt index (0-based) to an `Except` result.
  Logging and sleeping are side effects that do not change control flow and
  are not modelled.
-/

/-- JS `a || b` for strings, where `a` may be `undefined` (`none`) and the
empty string is falsy. -/
def jsOrStr (a : Option String) (b : String) : String :=
  match a with
  | none => b
  | some s => if s = "" then b else s

/-- Millisecond length of one day.  Modelled from the spec: the constants
module (`TIME.ONE_DAY_MILLISECONDS` in `./constants`) is not part of the
provided sources; the spec fixes the recency window at 24 hours. -/
def ONE_DAY_MILLISECONDS : Int := 86400000

/-- A raw RSS item as delivered by the parser, input of
`FeedFetcher.normalizeItem` (src/unnamed/part_007, lines 110-121).  Absent
fields are `none`. -/
structure RawItem where
  title : Option String
  link : Option String
  guid : Option String
  description : Option String
  contentSnippet : Option String
  contentEncoded : Option String
  content : Option String
  pubDate : Option String
  creator : Option String
  author : Option String
  categories : Option (List String)
deriving DecidableEq

/-- A normalized item, output of `FeedFetcher.normalizeItem`.  The field
`pubDate` is `none` exactly when the JS value is an invalid `Date`. -/
structure Item where
  title : String
  link : String
  description : String
  content : String
  pubDate : Option Int
  creator : String
  categories : List String
  guid : String
deriving DecidableEq

/-- An article: a normalized item together with the source tags attached by
`FeedFetcher.getAllArticles` (feedTitle/feedLink from the fetched feed,
feedParentTag/feedName from the configured feed entry). -/
structure Article extends Item where
  feedTitle : String
  feedLink : String
  feedParentTag : Option String
  feedName : String
deriving DecidableEq

/-- A parsed feed payload, output of `FeedFetcher.fetchFeed`. -/
structure Feed where
  title : String
  description : String
  link : String
  items : List Item
deriving DecidableEq

/-- A configured feed entry from `config.getRssFeedsWithTags`
(src/unnamed/part_004, `processFeedsData`). -/
structure FeedConfig where
  url : String
  parentTag : Option String
  name : String
deriving DecidableEq

/-- `FeedFetcher.normalizeItem` (src/unnamed/part_007, lines 110-121).
`parseDate` models the host `new Date(string)` parser (`none` = invalid
date); `stripHtml` models `Utils.stripHtml`; `now` is the normalization
instant (`new Date()`). -/
def normalizeItem (parseDate : String → Option Int) (stripHtml : String → String)
    (now : Int) (item : RawItem) : Item :=
  { title := jsOrStr item.title "無題"
    link := jsOrStr item.link (jsOrStr item.guid "")
    description := stripHtml (jsOrStr item.description (jsOrStr item.contentSnippet ""))
    content := jsOrStr item.contentEncoded (jsOrStr item.content "")
    pubDate :=
      match item.pubDate with
      | none => some now
      | some s => if s = "" then some now else parseDate s
    creator := jsOrStr item.creator (jsOrStr item.author "")
    categories := item.categories.getD []
    guid := jsOrStr item.guid (jsOrStr item.link "") }

/-- Start of the civil day containing instant `t`, for a timezone at a fixed
offset `tz` milliseconds east of UTC.  Models
`new Date(d.getFullYear(), d.getMonth(), d.getDate())`. -/
def dayStartLocal (tz t : Int) : Int :=
  t - (t + tz).emod ONE_DAY_MILLISECONDS

/-- `FeedFetcher.filterTodayArticles` (src/unnamed/part_007, lines 128-141).
Keeps articles whose `pubDate` compares `>=` against the start of the civil
day containing `now - ONE_DAY_MILLISECONDS`; an invalid date (`none`)
compares false. -/
def filterTodayArticles (tz now : Int) (articles : List Article) : List Article :=
  let oneDayAgo := now - ONE_DAY_MILLISECONDS
  let oneDayAgoStart := dayStartLocal tz oneDayAgo
  articles.filter fun a =>
    match a.pubDate with
    | some t => decide (oneDayAgoStart ≤ t)
    | none => false

/-- The derived dedup key `title + "_" + link` used by
`FeedFetcher.removeDuplicates`. -/
def dedupKey (a : Article) : String :=
  a.title ++ "_" ++ a.link

/-- Loop of `FeedFetcher.removeDuplicates` (src/unnamed/part_007, lines
193-204): the mutable `seen` set threaded through the filter callback. -/
def removeDuplicatesGo (seen : List String) : List Article → List Article
  | [] => []
  | a :: rest =>
    if dedupKey a ∈ seen then removeDuplicatesGo seen rest
    else a :: removeDuplicatesGo (dedupKey a :: seen) rest

/-- `FeedFetcher.removeDuplicates`: keep the first article for each dedup
key. -/
def removeDuplicates (articles : List Article) : List Article :=
  removeDuplicatesGo [] articles

/-- `FeedFetcher.fetchMultipleFeeds` (src/unnamed/part_007, lines 66-103),
given the per-URL fetch outcomes after retry (`none` = the fetch failed after
retries and the catch returned null).  Returns the successful payloads in
input order together with the reported count of failed feeds. -/
def fetchMultipleFeeds (outcomes : List (Option Feed)) : List Feed × Nat :=
  let successfulFeeds := outcomes.filterMap id
  (successfulFeeds, outcomes.length - successfulFeeds.length)

/-- The article tagging step of `FeedFetcher.getAllArticles`: spread each item
and attach feedTitle/feedLink from the fetched feed and
feedParentTag/feedName from the configured entry it was paired with. -/
def attachSource (feed : Feed) (cfg : FeedConfig) : List Article :=
  feed.items.map fun it =>
    { toItem := it
      feedTitle := feed.title
      feedLink := feed.link
      feedParentTag := cfg.parentTag
      feedName := cfg.name }

/-- `FeedFetcher.getAllArticles` (src/unnamed/part_007, lines 148-186).
`cfgs` is `config.getRssFeedsWithTags()`; `outcomes` are the per-URL fetch
results, aligned with `cfgs`.  Note the source pairs `feeds[i]` with
`feedsWithTags[i]` where `feeds` is the compacted list of successes, which
`List.zip` reproduces exactly. -/
def getAllArticles (cfgs : List FeedConfig) (outcomes : List (Option Feed))
    (todayOnly : Bool) (tz now : Int) : List Article :=
  let feeds := (fetchMultipleFeeds outcomes).1
  let allArticles := (feeds.zip cfgs).foldl (fun acc p => acc ++ attachSource p.1 p.2) []
  let filtered := if todayOnly then filterTodayArticles tz now allArticles else allArticles
  removeDuplicates filtered

/-- A JS error value as it flows through the retry helpers: either a raw
error thrown by an operation, or the enhanced error built by
`ErrorHandler.createError` (operation name, message, context key-value pairs,
original error). -/
inductive JsError where
  | raw (msg : String)
  | wrapped (operation : String) (message : String)
      (context : List (String × String)) (original : JsError)
deriving DecidableEq

/-- `ErrorHandler.createError` (src/unnamed/part_008, lines 47-60): build the
enhanced error carrying operation, message, context and the original error. -/
def createError (operation message : String) (context : List (String × String))
    (original : JsError) : JsError :=
  .wrapped operation message context original

/-- Tests whether an error is the enhanced wrapper produced by
`ErrorHandler.createError`, as opposed to a raw underlying error. -/
def isWrappedError : JsError → Bool
  | .wrapped _ _ _ _ => true
  | .raw _ => false

/-- Loop of `Utils.retry` (src/src/utils.js, lines 92-112).  `fn i` is the
outcome of the i-th invocation (0-based); `rem` is the number of retries still
allowed (`maxRetries - attempt`).  Returns the result together with the
number of times the operation was invoked.  On the final failure the raw
error is rethrown unchanged. -/
def utilsRetryGo (fn : Nat → Except JsError α) (attempt : Nat) :
    Nat → Except JsError α × Nat
  | 0 =>
    match fn attempt with
    | .ok a => (.ok a, 1)
    | .error e => (.error e, 1)
  | rem + 1 =>
    match fn attempt with
    | .ok a => (.ok a, 1)
    | .error _ =>
      let r := utilsRetryGo fn (attempt + 1) rem
      (r.1, r.2 + 1)

/-- `Utils.retry`: attempts 0 .. maxRetries; the final failure rethrows the
last underlying error as-is. -/
def utilsRetry (fn : Nat → Except JsError α) (maxRetries : Nat) :
    Except JsError α × Nat :=
  utilsRetryGo fn 0 maxRetries

/-- Loop of `RetryManager.executeWithRetry` (src/unnamed/part_013, lines
17-49).  On the final failure it throws
`createError operation ("Failed after N attempts") context lastError`.
The timeout race, logging and backoff sleeps do not change which result is
produced and are not modelled; a timed-out attempt is an `.error` outcome of
`fn`. -/
def executeWithRetryGo (fn : Nat → Except JsError α) (operation : String)
    (context : List (String × String)) (maxRetries attempt : Nat) :
    Nat → Except JsError α × Nat
  | 0 =>
    match fn attempt with
    | .ok a => (.ok a, 1)
    | .error e =>
      (.error (createError operation
        ("Failed after " ++ toString (maxRetries + 1) ++ " attempts") context e), 1)
  | rem + 1 =>
    match fn attempt with
    | .ok a => (.ok a, 1)
    | .error _ =>
      let r := executeWithRetryGo fn operation context maxRetries (attempt + 1) rem
      (r.1, r.2 + 1)

/-- `RetryManager.executeWithRetry`: maxRetries + 1 attempts; exhaustion
throws the wrapped error. -/
def executeWithRetry (fn : Nat → Except JsError α) (operation : String)
    (context : List (String × String)) (maxRetries : Nat) :
    Except JsError α × Nat :=
  executeWithRetryGo fn operation context maxRetries 0 maxRetries

/-- Loop of `ErrorHandler.retryWithLogging` (src/unnamed/part_008, lines
71-86); identical control flow to `RetryManager.executeWithRetry`, also
wrapping the final error via `createError`. -/
def retryWithLoggingGo (fn : Nat → Except JsError α) (operation : String)
    (context : List (String × String)) (maxRetries attempt : Nat) :
    Nat → Except JsError α × Nat
  | 0 =>
    match fn attempt with
    | .ok a => (.ok a, 1)
    | .error e =>
      (.error (createError operation
        ("Failed after " ++ toString (maxRetries + 1) ++ " attempts") context e), 1)
  | rem + 1 =>
    match fn attempt with
    | .ok a => (.ok a, 1)
    | .error _ =>
      let r := retryWithLoggingGo fn operation context maxRetries (attempt + 1) rem
      (r.1, r.2 + 1)

/-- `ErrorHandler.retryWithLogging`. -/
def retryWithLogging (fn : Nat → Except JsError α) (operation : String)
    (context : List (String × String)) (maxRetries : Nat) :
    Except JsError α × Nat :=
  retryWithLoggingGo fn operation context maxRetries 0 maxRetries

/-- Outcome of one `RSSFeeder.run` invocation: either the function returns
normally, or the process is terminated by `process.exit`. -/
inductive RunExit where
  | normal
  | exit (code : Nat)
deriving DecidableEq

/-- `RSSFeeder.run` (src/src/rssFeeder.js, lines 20-84) with its body
abstracted as a result: `.ok` when the pipeline completes (including the
early returns for empty article sets), `.error e` when any step throws.  The
catch block logs the error and then calls `process.exit(1)`, so `run` never
rejects: every internal failure terminates the process. -/
def rssFeederRun (pipeline : Except JsError Unit) : RunExit :=
  match pipeline with
  | .ok _ => .normal
  | .error _ => .exit 1

/-- Outcome of one scheduler tick, as observed by the daemon: either the
scheduler survives the tick (its timer stays registered and the next matching
tick fires), or the process was terminated during the tick. -/
inductive TickResult where
  | nextTickFires
  | processTerminated (code : Nat)
deriving DecidableEq

/-- `Scheduler.executeTask` (src/unnamed/part_008, lines 266-282): awaits
`rssFeeder.run()` inside try/catch.  The catch only intercepts promise
rejections; `process.exit` inside `run` bypasses it and terminates the
process, timer and all. -/
def schedulerExecuteTask (pipeline : Except JsError Unit) : TickResult :=
  match rssFeederRun pipeline with
  | .normal => .nextTickFires
  | .exit c => .processTerminated c

/-- ASCII model of JS `String.prototype.toLowerCase`. -/
def lowerStr (s : String) : String :=
  ⟨s.data.map Char.toLower⟩

/-- Whether `pat` occurs at the start of `l`. -/
def startsWithList (pat l : List Char) : Bool :=
  match pat, l with
  | [], _ => true
  | _ :: _, [] => false
  | a :: as, b :: bs => a == b && startsWithList as bs

/-- Whether `pat` occurs as a contiguous run inside `l`; models JS
`String.prototype.includes`. -/
def containsSub (pat : List Char) : List Char → Bool
  | [] => startsWithList pat []
  | b :: bs => startsWithList pat (b :: bs) || containsSub pat bs

/-- The lowercased title-plus-description text scanned for watch words in
`LLMProcessor.filterArticlesByKeywords` (src/src/llmProcessor.js, lines
274-276). -/
def articleContent (a : Article) : String :=
  lowerStr a.title ++ " " ++ lowerStr a.description

/-- Whether one watch word matches an article (case-insensitive substring of
title-plus-description). -/
def kwMatches (kw : String) (a : Article) : Bool :=
  containsSub (lowerStr kw).data (articleContent a).data

/-- The first watch word matching the article, in configured order; the
keyword loop of `filterArticlesByKeywords` pushes on the first match and
breaks. -/
def matchedKeyword (watchWords : List String) (a : Article) : Option String :=
  watchWords.find? (fun kw => kwMatches kw a)

/-- Push `a` onto the bucket keyed `k` in an insertion-ordered string-keyed
dictionary, creating the bucket at the end if the key is new.  Models
`if (!dict[k]) dict[k] = []; dict[k].push(a)`. -/
def upsert (k : String) (a : Article) :
    List (String × List Article) → List (String × List Article)
  | [] => [(k, [a])]
  | (k', as) :: rest =>
    if k = k' then (k', as ++ [a]) :: rest else (k', as) :: upsert k a rest

/-- Read a bucket from the dictionary; a missing key reads as the empty
bucket. -/
def bucketOf (k : String) (l : List (String × List Article)) : List Article :=
  match l.find? (fun p => p.1 == k) with
  | some p => p.2
  | none => []

/-- One iteration of a grouping loop: compute the bucket key for the article
(if any) and push the article into that bucket. -/
def groupStep (keyFn : Article → Option String)
    (g : List (String × List Article)) (a : Article) :
    List (String × List Article) :=
  match keyFn a with
  | some k => upsert k a g
  | none => g

/-- A grouping loop over all articles, starting from the empty dictionary. -/
def groupFold (keyFn : Article → Option String) (articles : List Article) :
    List (String × List Article) :=
  articles.foldl (groupStep keyFn) []

/-- The bucket label chosen by `groupArticlesByParentTags`:
`article.feedParentTag || DEFAULTS.PARENT_TAG` where `dflt` is the configured
default parent tag. -/
def labelJs (dflt : String) (a : Article) : String :=
  jsOrStr a.feedParentTag dflt

/-- The sort key used by the comparator
`(a, b) => new Date(b.pubDate) - new Date(a.pubDate)`, for articles with
valid dates.  An invalid date would make the comparator return NaN, whose
sort behaviour is unspecified; all sortedness statements below therefore
assume valid dates. -/
def jsTime (a : Article) : Int :=
  a.pubDate.getD 0

/-- Stable insertion of `a` into a descending-sorted list: `a` moves left
only past strictly older articles, so ties keep their existing order. -/
def insertDesc (a : Article) : List Article → List Article
  | [] => [a]
  | b :: bs => if jsTime b < jsTime a then a :: b :: bs else b :: insertDesc a bs

/-- The stable descending sort by `pubDate` performed on each bucket:
`articles.sort((a, b) => new Date(b.pubDate) - new Date(a.pubDate))`.
JS `Array.prototype.sort` is stable, so it is modelled by the canonical
stable sort: insert each article in turn into the sorted accumulator. -/
def sortByPubDateDesc (articles : List Article) : List Article :=
  articles.foldl (fun acc a => insertDesc a acc) []

/-- `LLMProcessor.groupArticlesByParentTags` (src/src/llmProcessor.js, lines
154-174): partition articles by `feedParentTag || default`, then sort each
bucket newest first. -/
def groupArticlesByParentTags (dflt : String) (articles : List Article) :
    List (String × List Article) :=
  let grouped := groupFold (fun a => some (labelJs dflt a)) articles
  grouped.map fun p => (p.1, sortByPubDateDesc p.2)

/-- `LLMProcessor.filterArticlesByKeywords` (src/src/llmProcessor.js, lines
266-306): each article lands in the bucket of the first matching watch word,
or in no bucket; buckets are not sorted.  The final cleanup loop deleting
empty buckets is the trailing filter. -/
def filterArticlesByKeywords (articles : List Article)
    (watchWords : List String) : List (String × List Article) :=
  if watchWords.isEmpty then []
  else (groupFold (matchedKeyword watchWords) articles).filter
    fun p => !p.2.isEmpty

/-- An output bucket handed to the writer: the grouped articles, the summary
string returned by the external summarizer, and the reported count. -/
structure Bucket where
  articles : List Article
  summary : String
  count : Nat
deriving DecidableEq

/-- `LLMProcessor.processArticles` (src/src/llmProcessor.js, lines 223-258),
with the external summarizer abstracted as `summarize`: group by parent tags,
skip empty groups, and emit one bucket per group with
`count = articles.length`. -/
def processArticles (summarize : String → List Article → String)
    (dflt : String) (articles : List Article) : List (String × Bucket) :=
  if articles.isEmpty then []
  else (groupArticlesByParentTags dflt articles).filterMap fun p =>
    if p.2.isEmpty then none
    else some (p.1, ⟨p.2, summarize p.1 p.2, p.2.length⟩)

/-- `LLMProcessor.processKeywordArticles` (src/src/llmProcessor.js, lines
434-481): filter by watch words, skip empty buckets, and emit one bucket per
keyword with `count = articles.length`. -/
def processKeywordArticles (summarize : String → List Article → String)
    (watchWords : List String) (articles : List Article) :
    List (String × Bucket) :=
  if watchWords.isEmpty then []
  else if articles.isEmpty then []
  else (filterArticlesByKeywords articles watchWords).filterMap fun p =>
    if p.2.isEmpty then none
    else some (p.1, ⟨p.2, summarize p.1 p.2, p.2.length⟩)

/-- The keys of a dictionary. -/
def keysOf (l : List (String × List Article)) : List String :=
  l.map Prod.fst

/-- The descending-by-date relation on articles. -/
def DescByDate (x y : Article) : Prop := jsTime y ≤ jsTime x

/-- Convenience constructor: an item with the given title, link and date. -/
def mkItem (title link : String) (pubDate : Option Int) : Item :=
  ⟨title, link, "", "", pubDate, "", [], ""⟩

/-- Convenience constructor: an article with empty source tags. -/
def mkArticle (title link : String) (pubDate : Option Int) : Article :=
  ⟨mkItem title link pubDate, "", "", none, ""⟩

/-- A raw item whose publication-date string is present but unparsable. -/
def unparsableDateRaw : RawItem :=
  ⟨none, none, none, none, none, none, none, some "not-a-date", none, none, none⟩

/-- A raw item with no publication-date field at all. -/
def missingDateRaw : RawItem :=
  ⟨none, none, none, none, none, none, none, none, none, none, none⟩

/-- A raw item whose publication-date field is the empty string (falsy in
JS, so `item.pubDate ? ... : new Date()` takes the else branch). -/
def emptyDateRaw : RawItem :=
  ⟨none, none, none, none, none, none, none, some "", none, none, none⟩

/-! Lemmas about the retry loops when every attempt fails. -/

theorem utilsRetryGo_all_fail {α : Type} (fn : Nat → Except JsError α)
    (errs : Nat → JsError) (hfn : ∀ i, fn i = .error (errs i)) :
    ∀ rem attempt, utilsRetryGo fn attempt rem =
      (.error (errs (attempt + rem)), rem + 1) := by
  intro rem
  induction rem with
  | zero => intro attempt; simp [utilsRetryGo, hfn attempt]
  | succ n ih =>
    intro attempt
    simp only [utilsRetryGo, hfn attempt, ih (attempt + 1)]
    have h : attempt + 1 + n = attempt + (n + 1) := by omega
    rw [h]

theorem executeWithRetryGo_all_fail {α : Type} (fn : Nat → Except JsError α)
    (op : String) (ctx : List (String × String)) (maxR : Nat)
    (errs : Nat → JsError) (hfn : ∀ i, fn i = .error (errs i)) :
    ∀ rem attempt, executeWithRetryGo fn op ctx maxR attempt rem =
      (.error (createError op ("Failed after " ++ toString (maxR + 1) ++ " attempts")
        ctx (errs (attempt + rem))), rem + 1) := by
  intro rem
  induction rem with
  | zero => intro attempt; simp [executeWithRetryGo, hfn attempt]
  | succ n ih =>
    intro attempt
    simp only [executeWithRetryGo, hfn attempt, ih (attempt + 1)]
    have h : attempt + 1 + n = attempt + (n + 1) := by omega
    rw [h]

theorem retryWithLoggingGo_all_fail {α : Type} (fn : Nat → Except JsError α)
    (op : String) (ctx : List (String × String)) (maxR : Nat)
    (errs : Nat → JsError) (hfn : ∀ i, fn i = .error (errs i)) :
    ∀ rem attempt, retryWithLoggingGo fn op ctx maxR attempt rem =
      (.error (createError op ("Failed after " ++ toString (maxR + 1) ++ " attempts")
        ctx (errs (attempt + rem))), rem + 1) := by
  intro rem
  induction rem with
  | zero => intro attempt; simp [retryWithLoggingGo, hfn attempt]
  | succ n ih =>
    intro attempt
    simp only [retryWithLoggingGo, hfn attempt, ih (attempt + 1)]
    have h : attempt + 1 + n = attempt + (n + 1) := by omega
    rw [h]

/-! Lemmas about deduplication. -/

theorem removeDuplicatesGo_not_seen (articles : List Article) :
    ∀ seen a, a ∈ removeDuplicatesGo seen articles → dedupKey a ∉ seen := by
  induction articles with
  | nil => intro seen a h; simp [removeDuplicatesGo] at h
  | cons x rest ih =>
    intro seen a h
    simp only [removeDuplicatesGo] at h
    by_cases hx : dedupKey x ∈ seen
    · simp only [if_pos hx] at h
      exact ih seen a h
    · simp only [if_neg hx] at h
      rw [List.mem_cons] at h
      rcases h with h | h
      · subst h; exact hx
      · have := ih (dedupKey x :: seen) a h
        intro hmem
        exact this (List.mem_cons_of_mem _ hmem)

theorem removeDuplicatesGo_pairwise (articles : List Article) :
    ∀ seen, (removeDuplicatesGo seen articles).Pairwise
      (fun x y => dedupKey x ≠ dedupKey y) := by
  induction articles with
  | nil => intro seen; simp [removeDuplicatesGo]
  | cons x rest ih =>
    intro seen
    simp only [removeDuplicatesGo]
    by_cases hx : dedupKey x ∈ seen
    · simp only [if_pos hx]; exact ih seen
    · simp only [if_neg hx]
      refine List.pairwise_cons.mpr ⟨?_, ih _⟩
      intro b hb
      have := removeDuplicatesGo_not_seen rest (dedupKey x :: seen) b hb
      intro heq
      exact this (heq ▸ List.mem_cons_self _ _)

/-- The output of `removeDuplicates` has pairwise-distinct dedup keys. -/
theorem removeDuplicates_pairwise (articles : List Article) :
    (removeDuplicates articles).Pairwise (fun x y => dedupKey x ≠ dedupKey y) :=
  removeDuplicatesGo_pairwise articles []

/-! Lemmas about the insertion-ordered dictionary and the grouping loops. -/

theorem bucketOf_upsert_self (k : String) (a : Article) :
    ∀ l, bucketOf k (upsert k a l) = bucketOf k l ++ [a] := by
  intro l
  induction l with
  | nil => simp [bucketOf, upsert, List.find?]
  | cons p rest ih =>
    obtain ⟨k', as⟩ := p
    by_cases h : k = k'
    · subst h
      simp [upsert, bucketOf, List.find?]
    · have hbeq : (k' == k) = false := by
        simp [BEq.beq]
        exact fun he => h he.symm
      simp only [upsert, if_neg h]
      simp only [bucketOf, List.find?, hbeq] at ih ⊢
      exact ih

theorem bucketOf_upsert_ne (k k' : String) (a : Article) (hne : k' ≠ k) :
    ∀ l, bucketOf k (upsert k' a l) = bucketOf k l := by
  intro l
  induction l with
  | nil =>
    have hbeq : (k' == k) = false := by simp [BEq.beq]; exact hne
    simp [bucketOf, upsert, List.find?, hbeq]
  | cons p rest ih =>
    obtain ⟨k'', as⟩ := p
    by_cases h : k' = k''
    · subst h
      have hbeq : (k' == k) = false := by simp [BEq.beq]; exact hne
      simp [upsert, bucketOf, List.find?, hbeq]
    · simp only [upsert, if_neg h]
      by_cases h2 : k'' = k
      · subst h2
        simp [bucketOf, List.find?]
      · have hbeq : (k'' == k) = false := by simp [BEq.beq]; exact h2
        simp only [bucketOf, List.find?, hbeq] at ih ⊢
        exact ih

theorem mem_keysOf_upsert (k x : String) (a : Article) :
    ∀ l, x ∈ keysOf (upsert k a l) → x = k ∨ x ∈ keysOf l := by
  intro l
  induction l with
  | nil => simp [upsert, keysOf]
  | cons p rest ih =>
    obtain ⟨k', as⟩ := p
    by_cases h : k = k'
    · subst h
      simp [upsert, keysOf]
    · simp only [upsert, if_neg h, keysOf, List.map_cons, List.mem_cons]
      rintro (rfl | hx)
      · right; left; rfl
      · rcases ih hx with h1 | h2
        · left; exact h1
        · right; right; exact h2

theorem nodup_keysOf_upsert (k : String) (a : Article) :
    ∀ l, (keysOf l).Nodup → (keysOf (upsert k a l)).Nodup := by
  intro l
  induction l with
  | nil => intro _; simp [upsert, keysOf]
  | cons p rest ih =>
    obtain ⟨k', as⟩ := p
    intro hnd
    simp only [keysOf, List.map_cons, List.nodup_cons] at hnd
    by_cases h : k = k'
    · subst h
      simpa [upsert, keysOf, List.nodup_cons] using hnd
    · simp only [upsert, if_neg h, keysOf, List.map_cons, List.nodup_cons]
      refine ⟨?_, ih hnd.2⟩
      intro hmem
      rcases mem_keysOf_upsert k k' a rest hmem with h1 | h2
      · exact h h1.symm
      · exact hnd.1 h2

theorem nodup_keysOf_groupFoldAux (keyFn : Article → Option String)
    (articles : List Article) :
    ∀ acc, (keysOf acc).Nodup →
      (keysOf (articles.foldl (groupStep keyFn) acc)).Nodup := by
  induction articles with
  | nil => intro acc h; simpa using h
  | cons x rest ih =>
    intro acc h
    simp only [List.foldl_cons]
    apply ih
    cases hk : keyFn x with
    | none => simpa [groupStep, hk] using h
    | some k =>
      simp only [groupStep, hk]
      exact nodup_keysOf_upsert k x acc h

theorem nodup_keysOf_groupFold (keyFn : Article → Option String)
    (articles : List Article) : (keysOf (groupFold keyFn articles)).Nodup :=
  nodup_keysOf_groupFoldAux keyFn articles [] (by simp [keysOf])

/-- Main characterization of the grouping loops: the bucket for key `k`
collects exactly the articles whose computed key is `k`, in input order. -/
theorem bucketOf_foldl_groupStep (keyFn : Article → Option String)
    (articles : List Article) :
    ∀ acc k, bucketOf k (articles.foldl (groupStep keyFn) acc) =
      bucketOf k acc ++ articles.filter (fun a => keyFn a == some k) := by
  induction articles with
  | nil => intro acc k; simp
  | cons x rest ih =>
    intro acc k
    simp only [List.foldl_cons]
    rw [ih]
    cases hk : keyFn x with
    | none =>
      have hne : (keyFn x == some k) = false := by simp [hk]
      simp [groupStep, hk, List.filter_cons, hne]
    | some k0 =>
      by_cases hkk : k0 = k
      · subst hkk
        have heq : (keyFn x == some k0) = true := by simp [hk]
        simp only [groupStep, hk, List.filter_cons, heq]
        rw [bucketOf_upsert_self]
        simp
      · have hne : ((some k0 : Option String) == some k) = false := by
          simp
          exact hkk
        simp only [groupStep, hk, List.filter_cons, hne, Bool.false_eq_true, if_false]
        rw [bucketOf_upsert_ne k k0 x hkk]

theorem bucketOf_groupFold (keyFn : Article → Option String)
    (articles : List Article) (k : String) :
    bucketOf k (groupFold keyFn articles) =
      articles.filter (fun a => keyFn a == some k) := by
  have := bucketOf_foldl_groupStep keyFn articles [] k
  simpa [groupFold, bucketOf, List.find?] using this

/-- Buckets created by the grouping loops are never empty. -/
theorem nonempty_upsert (k : String) (a : Article) :
    ∀ l, (∀ q ∈ l, q.2 ≠ []) → ∀ q ∈ upsert k a l, q.2 ≠ [] := by
  intro l
  induction l with
  | nil =>
    intro _ q hq
    simp only [upsert, List.mem_singleton] at hq
    subst hq
    simp
  | cons p rest ih =>
    obtain ⟨k', as⟩ := p
    intro hall q hq
    by_cases h : k = k'
    · subst h
      simp only [upsert, if_pos rfl] at hq
      cases hq with
      | head => simp
      | tail _ h1 => exact hall q (List.mem_cons_of_mem _ h1)
    · simp only [upsert, if_neg h] at hq
      cases hq with
      | head => exact hall _ (List.mem_cons_self _ _)
      | tail _ h1 => exact ih (fun r hr => hall r (List.mem_cons_of_mem _ hr)) _ h1

theorem nonempty_groupFoldAux (keyFn : Article → Option String)
    (articles : List Article) :
    ∀ acc, (∀ q ∈ acc, q.2 ≠ []) →
      ∀ q ∈ articles.foldl (groupStep keyFn) acc, q.2 ≠ [] := by
  induction articles with
  | nil => intro acc h; simpa using h
  | cons x rest ih =>
    intro acc h
    simp only [List.foldl_cons]
    apply ih
    cases hk : keyFn x with
    | none => simpa [groupStep, hk] using h
    | some k =>
      simp only [groupStep, hk]
      exact nonempty_upsert k x acc h

theorem nonempty_groupFold (keyFn : Article → Option String)
    (articles : List Article) :
    ∀ q ∈ groupFold keyFn articles, q.2 ≠ [] :=
  nonempty_groupFoldAux keyFn articles [] (by simp)

/-- The trailing empty-bucket cleanup in `filterArticlesByKeywords` removes
nothing. -/
theorem filterArticlesByKeywords_eq_groupFold (articles : List Article)
    (watchWords : List String) (hne : watchWords ≠ []) :
    filterArticlesByKeywords articles watchWords =
      groupFold (matchedKeyword watchWords) articles := by
  have h0 : watchWords.isEmpty = false := by
    cases watchWords with
    | nil => exact absurd rfl hne
    | cons a l => rfl
  unfold filterArticlesByKeywords
  rw [h0]
  simp only [Bool.false_eq_true, if_false]
  apply List.filter_eq_self.mpr
  intro q hq
  have := nonempty_groupFold (matchedKeyword watchWords) articles q hq
  simpa [List.isEmpty_iff] using this

/-! Lemmas about the stable descending sort. -/

theorem insertDesc_perm (a : Article) :
    ∀ l, List.Perm (insertDesc a l) (a :: l) := by
  intro l
  induction l with
  | nil => simp [insertDesc]
  | cons b bs ih =>
    simp only [insertDesc]
    by_cases h : jsTime b < jsTime a
    · rw [if_pos h]
    · rw [if_neg h]
      exact (List.Perm.cons b ih).trans (List.Perm.swap a b bs)

theorem sortByPubDateDescAux_perm (l : List Article) :
    ∀ acc, List.Perm (l.foldl (fun acc a => insertDesc a acc) acc) (l ++ acc) := by
  induction l with
  | nil => intro acc; simp
  | cons x xs ih =>
    intro acc
    simp only [List.foldl_cons]
    refine ((ih (insertDesc x acc)).trans ?_)
    exact (List.Perm.append_left xs (insertDesc_perm x acc)).trans
      List.perm_middle

theorem sortByPubDateDesc_perm (l : List Article) :
    List.Perm (sortByPubDateDesc l) l := by
  have := sortByPubDateDescAux_perm l []
  simpa [sortByPubDateDesc] using this

theorem insertDesc_sorted (a : Article) :
    ∀ l, l.Pairwise DescByDate → (insertDesc a l).Pairwise DescByDate := by
  intro l
  induction l with
  | nil => intro _; simp [insertDesc, DescByDate]
  | cons b bs ih =>
    intro hp
    rw [List.pairwise_cons] at hp
    simp only [insertDesc]
    by_cases h : jsTime b < jsTime a
    · rw [if_pos h]
      refine List.pairwise_cons.mpr ⟨?_, List.pairwise_cons.mpr hp⟩
      intro c hc
      rcases List.mem_cons.mp hc with rfl | hc2
      · exact le_of_lt h
      · exact le_trans (hp.1 c hc2) (le_of_lt h)
    · rw [if_neg h]
      refine List.pairwise_cons.mpr ⟨?_, ih hp.2⟩
      intro c hc
      have hmem := (insertDesc_perm a bs).mem_iff.mp hc
      rcases List.mem_cons.mp hmem with rfl | hc2
      · exact le_of_not_lt h
      · exact hp.1 c hc2

theorem sortByPubDateDescAux_sorted (l : List Article) :
    ∀ acc, acc.Pairwise DescByDate →
      (l.foldl (fun acc a => insertDesc a acc) acc).Pairwise DescByDate := by
  induction l with
  | nil => intro acc h; simpa using h
  | cons x xs ih =>
    intro acc h
    simp only [List.foldl_cons]
    exact ih (insertDesc x acc) (insertDesc_sorted x acc h)

/-- Every sorted bucket is in descending `pubDate` order. -/
theorem sortByPubDateDesc_sorted (l : List Article) :
    (sortByPubDateDesc l).Pairwise DescByDate :=
  sortByPubDateDescAux_sorted l [] (by simp)

theorem insertDesc_filter_time (a : Article) (t : Int) :
    ∀ l, l.Pairwise DescByDate →
      (insertDesc a l).filter (fun x => jsTime x == t) =
        l.filter (fun x => jsTime x == t) ++
          (if jsTime a == t then [a] else []) := by
  intro l
  induction l with
  | nil => intro _; simp [insertDesc, List.filter_cons]
  | cons b bs ih =>
    intro hp
    rw [List.pairwise_cons] at hp
    simp only [insertDesc]
    by_cases h : jsTime b < jsTime a
    · rw [if_pos h]
      by_cases ha : jsTime a = t
      · have hb : (jsTime b == t) = false := by
          simp only [beq_eq_false_iff_ne, ne_eq]
          omega
        have hbs : ∀ c ∈ bs, (jsTime c == t) = false := by
          intro c hc
          have := hp.1 c hc
          simp only [DescByDate] at this
          simp only [beq_eq_false_iff_ne, ne_eq]
          omega
        have hfil : bs.filter (fun x => jsTime x == t) = [] :=
          List.filter_eq_nil_iff.mpr (by intro c hc; simp [hbs c hc])
        simp [List.filter_cons, ha, hb, hfil]
      · have ha2 : (jsTime a == t) = false := by
          simpa [beq_eq_false_iff_ne, ne_eq] using ha
        simp [List.filter_cons, ha2]
    · rw [if_neg h]
      rw [List.filter_cons, List.filter_cons, ih hp.2]
      by_cases hb : jsTime b == t
      · simp [hb]
      · simp [hb]

theorem sortByPubDateDescAux_stable (l : List Article) (t : Int) :
    ∀ acc, acc.Pairwise DescByDate →
      (l.foldl (fun acc a => insertDesc a acc) acc).filter (fun x => jsTime x == t) =
        acc.filter (fun x => jsTime x == t) ++ l.filter (fun x => jsTime x == t) := by
  induction l with
  | nil => intro acc _; simp
  | cons x xs ih =>
    intro acc h
    simp only [List.foldl_cons]
    rw [ih (insertDesc x acc) (insertDesc_sorted x acc h),
        insertDesc_filter_time x t acc h, List.filter_cons]
    by_cases hx : jsTime x == t
    · simp [hx]
    · simp [hx]

/-- Stability of the bucket sort: articles with any fixed `pubDate` keep
their input order. -/
theorem sortByPubDateDesc_stable (l : List Article) (t : Int) :
    (sortByPubDateDesc l).filter (fun x => jsTime x == t) =
      l.filter (fun x => jsTime x == t) := by
  have := sortByPubDateDescAux_stable l t [] (by simp)
  simpa [sortByPubDateDesc] using this

/-! Characterization of `groupArticlesByParentTags`. -/

theorem bucketOf_map_sort (k : String) :
    ∀ l, bucketOf k (l.map fun p => (p.1, sortByPubDateDesc p.2)) =
      sortByPubDateDesc (bucketOf k l) := by
  intro l
  induction l with
  | nil => simp [bucketOf, List.find?, sortByPubDateDesc]
  | cons p rest ih =>
    obtain ⟨k', as⟩ := p
    by_cases h : k' == k
    · simp only [List.map_cons, bucketOf, List.find?, h]
    · simp only [List.map_cons, bucketOf, List.find?, h] at ih ⊢
      exact ih

theorem keysOf_map_sort (l : List (String × List Article)) :
    keysOf (l.map fun p => (p.1, sortByPubDateDesc p.2)) = keysOf l := by
  simp [keysOf, List.map_map]

theorem bucketOf_eq_of_mem (k : String) (b : List Article) :
    ∀ l, (keysOf l).Nodup → (k, b) ∈ l → bucketOf k l = b := by
  intro l
  induction l with
  | nil => intro _ h; simp at h
  | cons p rest ih =>
    obtain ⟨k', as⟩ := p
    intro hnd hmem
    simp only [keysOf, List.map_cons, List.nodup_cons] at hnd
    rcases List.mem_cons.mp hmem with heq | hmem2
    · have hk : k' = k := (congrArg Prod.fst heq).symm
      have hb : as = b := (congrArg Prod.snd heq).symm
      subst hk hb
      simp [bucketOf, List.find?]
    · have hkne : k' ≠ k := by
        intro he
        subst he
        exact hnd.1 (List.mem_map.mpr ⟨(k', b), hmem2, rfl⟩)
      have hbeq : (k' == k) = false := by
        simp only [beq_eq_false_iff_ne, ne_eq]
        exact hkne
      simp only [bucketOf, List.find?, hbeq]
      have := ih hnd.2 hmem2
      simpa [bucketOf] using this

/-- Every bucket of the label grouping is the sorted filter of the input by
its bucket label. -/
theorem groupArticlesByParentTags_mem (dflt : String) (articles : List Article)
    (k : String) (b : List Article)
    (hmem : (k, b) ∈ groupArticlesByParentTags dflt articles) :
    b = sortByPubDateDesc
      (articles.filter fun a => labelJs dflt a == k) := by
  have hnd : (keysOf (groupArticlesByParentTags dflt articles)).Nodup := by
    unfold groupArticlesByParentTags
    rw [keysOf_map_sort]
    exact nodup_keysOf_groupFold _ articles
  have hb := bucketOf_eq_of_mem k b _ hnd hmem
  rw [← hb]
  unfold groupArticlesByParentTags
  rw [bucketOf_map_sort, bucketOf_groupFold]
  congr 1

/-- Every bucket of the keyword grouping is the in-order filter of the input
by first-matching watch word. -/
theorem filterArticlesByKeywords_mem (articles : List Article)
    (watchWords : List String) (k : String) (b : List Article)
    (hmem : (k, b) ∈ filterArticlesByKeywords articles watchWords) :
    b = articles.filter fun a => matchedKeyword watchWords a == some k := by
  have hne : watchWords ≠ [] := by
    intro he
    subst he
    simp [filterArticlesByKeywords] at hmem
  rw [filterArticlesByKeywords_eq_groupFold articles watchWords hne] at hmem
  have hnd := nodup_keysOf_groupFold (matchedKeyword watchWords) articles
  have hb := bucketOf_eq_of_mem k b _ hnd hmem
  rw [← hb, bucketOf_groupFold]

theorem bucketOf_filterArticlesByKeywords (articles : List Article)
    (watchWords : List String) (k : String) :
    bucketOf k (filterArticlesByKeywords articles watchWords) =
      articles.filter fun a => matchedKeyword watchWords a == some k := by
  cases watchWords with
  | nil => simp [filterArticlesByKeywords, bucketOf, List.find?, matchedKeyword]
  | cons w ws =>
    rw [filterArticlesByKeywords_eq_groupFold articles (w :: ws) (by simp),
      bucketOf_groupFold]

/-! Remaining auxiliary lemmas. -/

theorem dayStartLocal_le (tz t : Int) : dayStartLocal tz t ≤ t := by
  unfold dayStartLocal ONE_DAY_MILLISECONDS
  show t - (t + tz) % 86400000 ≤ t
  omega

theorem find?_first_of_append (p : String → Bool) (k : String)
    (post : List String) :
    ∀ pre, (∀ x ∈ pre, p x = false) → p k = true →
      (pre ++ k :: post).find? p = some k := by
  intro pre
  induction pre with
  | nil =>
    intro _ hk
    simpa [List.find?_cons] using List.find?_cons_of_pos post hk
  | cons x xs ih =>
    intro hpre hk
    have hx : p x = false := hpre x (List.mem_cons_self _ _)
    rw [List.cons_append, List.find?_cons_of_neg _ (by simp [hx]), ih
      (fun y hy => hpre y (List.mem_cons_of_mem _ hy)) hk]

theorem matchedKeyword_none (watchWords : List String) (a : Article)
    (h : ∀ w ∈ watchWords, kwMatches w a = false) :
    matchedKeyword watchWords a = none := by
  unfold matchedKeyword
  apply List.find?_eq_none.mpr
  intro w hw
  simp [h w hw]

/-! Claim theorems. -/

/-- C1: with three configured sources of which source 2 always fails after
retries, aggregation does report exactly one failed source and does return
the records of sources 1 and 3, but the record of source 3 carries the
configured parentTag of source 2 rather than its own: `getAllArticles` pairs
the compacted success list `feeds[i]` with the uncompacted configuration list
`feedsWithTags[i]`, so after a failure every later source is tagged with the
label and name configured for an earlier source.  This refutes the claim
that each record is tagged with the sourceLabel of the source it was
actually fetched from (the feedTitle/feedLink tags, taken from the fetched
payload itself, are correct). -/
theorem c1_source_tag_misalignment :
    (fetchMultipleFeeds
      [some ⟨"F1", "", "fl1", [mkItem "s1" "l1" (some 0)]⟩, none,
       some ⟨"F3", "", "fl3", [mkItem "s3" "l3" (some 0)]⟩]).2 = 1 ∧
    (getAllArticles
      [⟨"u1", some "t1", "n1"⟩, ⟨"u2", some "t2", "n2"⟩, ⟨"u3", some "t3", "n3"⟩]
      [some ⟨"F1", "", "fl1", [mkItem "s1" "l1" (some 0)]⟩, none,
       some ⟨"F3", "", "fl3", [mkItem "s3" "l3" (some 0)]⟩]
      false 0 0).map (fun a => (a.title, a.feedTitle, a.feedParentTag)) =
      [("s1", "F1", some "t1"), ("s3", "F3", some "t2")] ∧
    (some "t2" : Option String) ≠ some "t3" := by
  refine ⟨rfl, by decide, by decide⟩

/-- C2: a scheduled tick whose pipeline run fails internally terminates the
whole process instead of letting the next tick fire.  `RSSFeeder.run`
catches every internal error itself and ends its catch block with
`process.exit(1)`, so the rejection never reaches the try/catch in
`Scheduler.executeTask` (whose unit tests exercise it only with a mocked
`run` that rejects); the daemon process, scheduler timer included, is
terminated with status 1 and no further tick ever fires. -/
theorem c2_failed_run_terminates_process (e : JsError) :
    schedulerExecuteTask (Except.error e) = TickResult.processTerminated 1 ∧
    schedulerExecuteTask (Except.error e) ≠ TickResult.nextTickFires :=
  ⟨rfl, fun h => TickResult.noConfusion h⟩

/-- C3 counterexample: `Utils.retry` rethrows the raw underlying error on
exhaustion (`throw error` in its final branch), so a raw error does cross
that retry boundary, refuting the claim that a RetryExhausted-style wrapper
is the only error type that can cross. -/
theorem c3_raw_error_crosses_utils_retry :
    (utilsRetry (fun _ => Except.error (JsError.raw "ECONNRESET") :
        Nat → Except JsError Unit) 3).1 =
      Except.error (JsError.raw "ECONNRESET") ∧
    isWrappedError (JsError.raw "ECONNRESET") = false :=
  ⟨rfl, rfl⟩

/-- C3 amended: `RetryManager.executeWithRetry` and
`ErrorHandler.retryWithLogging` do wrap the last underlying error together
with the operation name and context on exhaustion, and that wrapper is the
only error they throw on failure; `Utils.retry`, however, rethrows the last
underlying error unwrapped. -/
theorem c3_exhaustion_error_shape {α : Type} (fn : Nat → Except JsError α)
    (op : String) (ctx : List (String × String)) (n : Nat)
    (errs : Nat → JsError) (hfn : ∀ i, fn i = Except.error (errs i)) :
    (executeWithRetry fn op ctx n).1 =
      Except.error (createError op
        ("Failed after " ++ toString (n + 1) ++ " attempts") ctx (errs n)) ∧
    (retryWithLogging fn op ctx n).1 =
      Except.error (createError op
        ("Failed after " ++ toString (n + 1) ++ " attempts") ctx (errs n)) ∧
    (utilsRetry fn n).1 = Except.error (errs n) := by
  have h1 := executeWithRetryGo_all_fail fn op ctx n errs hfn n 0
  have h2 := retryWithLoggingGo_all_fail fn op ctx n errs hfn n 0
  have h3 := utilsRetryGo_all_fail fn errs hfn n 0
  rw [Nat.zero_add] at h1 h2 h3
  exact ⟨by rw [executeWithRetry, h1], by rw [retryWithLogging, h2],
    by rw [utilsRetry, h3]⟩

/-- C3 witness: the amended behaviour at a concrete always-failing
operation with two retries. -/
theorem c3_exhaustion_error_shape_witness :
    (∀ i : Nat, (fun _ : Nat => (Except.error (JsError.raw "boom") :
        Except JsError Unit)) i = Except.error (JsError.raw "boom")) ∧
    (executeWithRetry (fun _ : Nat => (Except.error (JsError.raw "boom") :
        Except JsError Unit)) "feed_fetch" [("feedUrl", "u")] 2).1 =
      Except.error (createError "feed_fetch"
        ("Failed after " ++ toString (2 + 1) ++ " attempts")
        [("feedUrl", "u")] (JsError.raw "boom")) ∧
    (retryWithLogging (fun _ : Nat => (Except.error (JsError.raw "boom") :
        Except JsError Unit)) "feed_fetch" [("feedUrl", "u")] 2).1 =
      Except.error (createError "feed_fetch"
        ("Failed after " ++ toString (2 + 1) ++ " attempts")
        [("feedUrl", "u")] (JsError.raw "boom")) ∧
    (utilsRetry (fun _ : Nat => (Except.error (JsError.raw "boom") :
        Except JsError Unit)) 2).1 = Except.error (JsError.raw "boom") :=
  ⟨fun _ => rfl,
    c3_exhaustion_error_shape (fun _ => Except.error (JsError.raw "boom"))
      "feed_fetch" [("feedUrl", "u")] 2 (fun _ => JsError.raw "boom")
      (fun _ => rfl)⟩

/-- C4 counterexample: with the 24-hour window, a record whose `publishedAt`
is now − 25 hours can pass the filter.  Take `now` = 169200000 (23:00 UTC on
day 2 of the epoch, timezone offset 0): the record at now − 25h = 79200000
is strictly older than now − 24h, yet the filter keeps it, because the
actual lower bound is the start of the civil day containing now − 24h
(here 0), not now − 24h itself. -/
theorem c4_now_minus_25h_included :
    ¬ ((169200000 : Int) - ONE_DAY_MILLISECONDS ≤ 79200000) ∧
    filterTodayArticles 0 169200000 [mkArticle "x" "y" (some 79200000)] =
      [mkArticle "x" "y" (some 79200000)] := by
  exact ⟨by decide, by decide⟩

/-- C4 amended: the filter keeps a record iff its `publishedAt` is a valid
date not earlier than the start of the civil day containing now − 24h; there
is no upper bound at the current instant (future-dated records pass, and
records up to 25+ hours old pass when they fall on or after that day start).
A record at now − 1 hour is always included. -/
theorem c4_window_characterization (tz now : Int) (articles : List Article)
    (a : Article) :
    (a ∈ filterTodayArticles tz now articles ↔
      a ∈ articles ∧ ∃ t, a.pubDate = some t ∧
        dayStartLocal tz (now - ONE_DAY_MILLISECONDS) ≤ t) ∧
    (a ∈ articles → a.pubDate = some (now - 3600000) →
      a ∈ filterTodayArticles tz now articles) := by
  constructor
  · unfold filterTodayArticles
    rw [List.mem_filter]
    constructor
    · rintro ⟨hmem, hp⟩
      refine ⟨hmem, ?_⟩
      cases hpd : a.pubDate with
      | none => rw [hpd] at hp; simp at hp
      | some t =>
        rw [hpd] at hp
        simp only [decide_eq_true_eq] at hp
        exact ⟨t, rfl, hp⟩
    · rintro ⟨hmem, t, hpd, hle⟩
      refine ⟨hmem, ?_⟩
      rw [hpd]
      simpa using hle
  · intro hmem hpd
    unfold filterTodayArticles
    rw [List.mem_filter]
    refine ⟨hmem, ?_⟩
    rw [hpd]
    have h1 := dayStartLocal_le tz (now - ONE_DAY_MILLISECONDS)
    have h2 : (ONE_DAY_MILLISECONDS : Int) = 86400000 := rfl
    simp only [decide_eq_true_eq]
    omega

/-- C4 witness: a record one hour old is kept by the filter. -/
theorem c4_window_characterization_witness :
    mkArticle "w" "l" (some 165600000) ∈
      filterTodayArticles 0 169200000 [mkArticle "w" "l" (some 165600000)] :=
  (c4_window_characterization 0 169200000
    [mkArticle "w" "l" (some 165600000)] (mkArticle "w" "l" (some 165600000))).2
    (by decide) rfl

/-- C5 counterexample: an item whose publication-date string is present but
unparsable is normalized to an invalid date (`new Date("not-a-date")`),
not to the normalization instant, and the window filter then always excludes
it (NaN comparisons are false) — the opposite of the claimed behaviour. -/
theorem c5_unparsable_date_excluded :
    (normalizeItem (fun _ => none) id 42 unparsableDateRaw).pubDate = none ∧
    filterTodayArticles 0 50
      [{ toItem := normalizeItem (fun _ => none) id 42 unparsableDateRaw,
         feedTitle := "", feedLink := "", feedParentTag := none,
         feedName := "" }] = [] := by
  exact ⟨rfl, by decide⟩

/-- C5 amended: an item with a missing or empty publication-date field is
assigned the normalization instant as `publishedAt` and always passes the
window filter of the run it was fetched in (the filter running at most 24h
after normalization); an item whose date string is present but unparsable
gets an invalid date and is always excluded by the filter. -/
theorem c5_normalization_date_behavior (parse : String → Option Int)
    (strip : String → String) (nowN nowF tz : Int) (item : RawItem)
    (art : Article) (hart : art.toItem = normalizeItem parse strip nowN item)
    (hrun : nowF ≤ nowN + ONE_DAY_MILLISECONDS) :
    (item.pubDate = none ∨ item.pubDate = some "" →
      art.pubDate = some nowN ∧
      filterTodayArticles tz nowF [art] = [art]) ∧
    (∀ s, item.pubDate = some s → s ≠ "" → parse s = none →
      filterTodayArticles tz nowF [art] = []) := by
  have hpd : art.pubDate = (normalizeItem parse strip nowN item).pubDate := by
    rw [← hart]
  constructor
  · intro hmiss
    have h1 : art.pubDate = some nowN := by
      rw [hpd]
      rcases hmiss with h | h
      · simp [normalizeItem, h]
      · simp [normalizeItem, h]
    refine ⟨h1, ?_⟩
    unfold filterTodayArticles
    rw [List.filter_cons, h1]
    have h2 := dayStartLocal_le tz (nowF - ONE_DAY_MILLISECONDS)
    have h3 : (ONE_DAY_MILLISECONDS : Int) = 86400000 := rfl
    have h4 : dayStartLocal tz (nowF - ONE_DAY_MILLISECONDS) ≤ nowN := by omega
    simp [h4]
  · intro s hs hsne hparse
    have h1 : art.pubDate = none := by
      rw [hpd]
      simp [normalizeItem, hs, hsne, hparse]
    unfold filterTodayArticles
    rw [List.filter_cons, h1]
    simp

/-- C5 witness: concrete instances of the amended claim for a missing date
field and for an empty-string date field; both are assigned the
normalization instant (42) and kept by the filter. -/
theorem c5_normalization_date_behavior_witness :
    (({ toItem := normalizeItem (fun _ => none) id 42 missingDateRaw,
        feedTitle := "", feedLink := "", feedParentTag := none,
        feedName := "" } : Article).pubDate = some 42 ∧
      filterTodayArticles 0 50
        [{ toItem := normalizeItem (fun _ => none) id 42 missingDateRaw,
           feedTitle := "", feedLink := "", feedParentTag := none,
           feedName := "" }] =
        [{ toItem := normalizeItem (fun _ => none) id 42 missingDateRaw,
           feedTitle := "", feedLink := "", feedParentTag := none,
           feedName := "" }]) ∧
    (({ toItem := normalizeItem (fun _ => none) id 42 emptyDateRaw,
        feedTitle := "", feedLink := "", feedParentTag := none,
        feedName := "" } : Article).pubDate = some 42 ∧
      filterTodayArticles 0 50
        [{ toItem := normalizeItem (fun _ => none) id 42 emptyDateRaw,
           feedTitle := "", feedLink := "", feedParentTag := none,
           feedName := "" }] =
        [{ toItem := normalizeItem (fun _ => none) id 42 emptyDateRaw,
           feedTitle := "", feedLink := "", feedParentTag := none,
           feedName := "" }]) :=
  ⟨(c5_normalization_date_behavior (fun _ => none) id 42 50 0 missingDateRaw
      _ rfl (by decide)).1 (Or.inl rfl),
    (c5_normalization_date_behavior (fun _ => none) id 42 50 0 emptyDateRaw
      _ rfl (by decide)).1 (Or.inr rfl)⟩

/-- C6 counterexample: watch-keyword buckets are not sorted.  Two articles
matching the watch word "k", older first, come out of the keyword grouping
still older-first, refuting the claim that every bucket of either grouping
pass is sorted newest-first. -/
theorem c6_keyword_bucket_not_sorted :
    bucketOf "k" (filterArticlesByKeywords
      [mkArticle "k old" "l1" (some 0), mkArticle "k new" "l2" (some 5)]
      ["k"]) =
      [mkArticle "k old" "l1" (some 0), mkArticle "k new" "l2" (some 5)] ∧
    jsTime (mkArticle "k old" "l1" (some 0)) <
      jsTime (mkArticle "k new" "l2" (some 5)) := by
  exact ⟨by decide, by decide⟩

/-- C6 amended: label-grouping buckets are sorted by `publishedAt`
descending and the sort is stable (articles with any fixed timestamp keep
their input order); keyword-grouping buckets are not sorted at all — they
list the matching articles in input order.  The valid-date hypothesis marks
the scope of the model: on invalid dates the JS comparator returns NaN and
the sort order is unspecified. -/
theorem c6_bucket_ordering (dflt : String) (articles : List Article)
    (watchWords : List String)
    (_hv : ∀ a ∈ articles, a.pubDate.isSome = true) :
    (∀ k b, (k, b) ∈ groupArticlesByParentTags dflt articles →
      b.Pairwise DescByDate ∧
      ∀ t : Int, b.filter (fun x => jsTime x == t) =
        (articles.filter fun a => labelJs dflt a == k).filter
          (fun x => jsTime x == t)) ∧
    (∀ k, bucketOf k (filterArticlesByKeywords articles watchWords) =
      articles.filter fun a => matchedKeyword watchWords a == some k) := by
  constructor
  · intro k b hmem
    have hb := groupArticlesByParentTags_mem dflt articles k b hmem
    subst hb
    exact ⟨sortByPubDateDesc_sorted _, fun t => sortByPubDateDesc_stable _ t⟩
  · intro k
    exact bucketOf_filterArticlesByKeywords articles watchWords k

/-- C6 witness: a concrete label bucket comes out newest-first, and a
concrete keyword lookup is the in-order filter. -/
theorem c6_bucket_ordering_witness :
    List.Pairwise DescByDate
      [mkArticle "b" "l2" (some 7), mkArticle "a" "l1" (some 3)] ∧
    bucketOf "w" (filterArticlesByKeywords
      [mkArticle "a" "l1" (some 3), mkArticle "b" "l2" (some 7)] []) = [] := by
  have h := c6_bucket_ordering "tech"
    [mkArticle "a" "l1" (some 3), mkArticle "b" "l2" (some 7)] [] (by decide)
  refine ⟨(h.1 "tech" _ (by decide)).1, (h.2 "w").trans (by decide)⟩

/-- C7: with maxRetries = n, every one of the three retry helpers invokes an
always-failing operation exactly n + 1 times before raising its exhaustion
error (in the repository the configured `maxRetries` plays the role the spec
calls maxAttempts). -/
theorem c7_retry_invocation_count {α : Type} (fn : Nat → Except JsError α)
    (op : String) (ctx : List (String × String)) (n : Nat)
    (errs : Nat → JsError) (hfn : ∀ i, fn i = Except.error (errs i)) :
    (utilsRetry fn n).2 = n + 1 ∧
    (executeWithRetry fn op ctx n).2 = n + 1 ∧
    (retryWithLogging fn op ctx n).2 = n + 1 := by
  have h1 := utilsRetryGo_all_fail fn errs hfn n 0
  have h2 := executeWithRetryGo_all_fail fn op ctx n errs hfn n 0
  have h3 := retryWithLoggingGo_all_fail fn op ctx n errs hfn n 0
  exact ⟨by rw [utilsRetry, h1], by rw [executeWithRetry, h2],
    by rw [retryWithLogging, h3]⟩

/-- C7 witness: with maxRetries = 3 an always-failing operation is invoked
exactly 4 times by each helper. -/
theorem c7_retry_invocation_count_witness :
    (utilsRetry (fun _ : Nat => (Except.error (JsError.raw "fail") :
        Except JsError Unit)) 3).2 = 4 ∧
    (executeWithRetry (fun _ : Nat => (Except.error (JsError.raw "fail") :
        Except JsError Unit)) "op" [] 3).2 = 4 ∧
    (retryWithLogging (fun _ : Nat => (Except.error (JsError.raw "fail") :
        Except JsError Unit)) "op" [] 3).2 = 4 :=
  c7_retry_invocation_count (fun _ => Except.error (JsError.raw "fail"))
    "op" [] 3 (fun _ => JsError.raw "fail") (fun _ => rfl)

/-- C8: in the watch grouping, a record lands in the bucket of the first
watch word (in configured order) whose lowercased text occurs in the
record's lowercased title-plus-description, and in that bucket only; a
record matching no watch word appears in no bucket. -/
theorem c8_first_match_wins (articles : List Article)
    (watchWords pre post : List String) (k : String) (a : Article)
    (ha : a ∈ articles) (horder : watchWords = pre ++ k :: post)
    (hpre : ∀ w ∈ pre, kwMatches w a = false)
    (hk : kwMatches k a = true) :
    (a ∈ bucketOf k (filterArticlesByKeywords articles watchWords) ∧
     ∀ k', k' ≠ k →
       a ∉ bucketOf k' (filterArticlesByKeywords articles watchWords)) ∧
    (∀ b ∈ articles, (∀ w ∈ watchWords, kwMatches w b = false) →
      ∀ k'', b ∉ bucketOf k'' (filterArticlesByKeywords articles watchWords)) := by
  have hmk : matchedKeyword watchWords a = some k := by
    rw [horder]
    exact find?_first_of_append (fun kw => kwMatches kw a) k post pre hpre hk
  constructor
  · constructor
    · rw [bucketOf_filterArticlesByKeywords]
      rw [List.mem_filter]
      exact ⟨ha, by simp [hmk]⟩
    · intro k' hne
      rw [bucketOf_filterArticlesByKeywords]
      rw [List.mem_filter]
      rintro ⟨-, hmatch⟩
      rw [hmk] at hmatch
      simp only [beq_iff_eq, Option.some.injEq] at hmatch
      exact hne hmatch.symm
  · intro b _ hnone k''
    have hmb : matchedKeyword watchWords b = none :=
      matchedKeyword_none watchWords b hnone
    rw [bucketOf_filterArticlesByKeywords]
    rw [List.mem_filter]
    rintro ⟨-, hmatch⟩
    rw [hmb] at hmatch
    simp at hmatch

/-- C8 witness: a record whose text contains both "alpha" and "beta", with
the watch list ["alpha", "beta"], lands in the alpha bucket and not in the
beta bucket. -/
theorem c8_first_match_wins_witness :
    mkArticle "Alpha and Beta news" "l" (some 0) ∈
      bucketOf "alpha" (filterArticlesByKeywords
        [mkArticle "Alpha and Beta news" "l" (some 0)] ["alpha", "beta"]) ∧
    mkArticle "Alpha and Beta news" "l" (some 0) ∉
      bucketOf "beta" (filterArticlesByKeywords
        [mkArticle "Alpha and Beta news" "l" (some 0)] ["alpha", "beta"]) := by
  have h := c8_first_match_wins
    [mkArticle "Alpha and Beta news" "l" (some 0)] ["alpha", "beta"]
    [] ["beta"] "alpha" (mkArticle "Alpha and Beta news" "l" (some 0))
    (by decide) rfl (by intro w hw; simp at hw) (by decide)
  exact ⟨h.1.1, h.1.2 "beta" (by decide)⟩

/-- C9: downstream buckets built from the deduplicated article set (as in
`RSSFeeder.run`, which feeds `getAllArticles` output to both processors)
always satisfy `count = articles.length`, are never empty, and contain no
two records with the same dedup key. -/
theorem c9_bucket_invariant (summarizeTag summarizeKw : String → List Article → String)
    (dflt : String) (watchWords : List String) (raw : List Article) :
    (∀ p ∈ processArticles summarizeTag dflt (removeDuplicates raw),
      p.2.count = p.2.articles.length ∧ p.2.articles ≠ [] ∧
      p.2.articles.Pairwise (fun x y => dedupKey x ≠ dedupKey y)) ∧
    (∀ p ∈ processKeywordArticles summarizeKw watchWords (removeDuplicates raw),
      p.2.count = p.2.articles.length ∧ p.2.articles ≠ [] ∧
      p.2.articles.Pairwise (fun x y => dedupKey x ≠ dedupKey y)) := by
  have hdist := removeDuplicates_pairwise raw
  have hsymm : Symmetric (fun x y : Article => dedupKey x ≠ dedupKey y) :=
    fun x y hxy he => hxy he.symm
  constructor
  · intro p hp
    unfold processArticles at hp
    by_cases hemp : (removeDuplicates raw).isEmpty
    · rw [if_pos hemp] at hp
      simp at hp
    · rw [if_neg hemp] at hp
      obtain ⟨q, hq, hf⟩ := List.mem_filterMap.mp hp
      by_cases hqe : q.2.isEmpty
      · rw [if_pos hqe] at hf
        simp at hf
      · rw [if_neg hqe] at hf
        obtain rfl := Option.some.inj hf
        refine ⟨rfl, by simpa [List.isEmpty_iff] using hqe, ?_⟩
        have hchar := groupArticlesByParentTags_mem dflt
          (removeDuplicates raw) q.1 q.2 (by rwa [Prod.mk.eta])
        have hfil : ((removeDuplicates raw).filter
            fun a => labelJs dflt a == q.1).Pairwise
            (fun x y => dedupKey x ≠ dedupKey y) :=
          List.Pairwise.sublist (List.filter_sublist _) hdist
        have hperm := sortByPubDateDesc_perm
          ((removeDuplicates raw).filter fun a => labelJs dflt a == q.1)
        rw [hchar]
        exact (hperm.pairwise_iff fun h => hsymm h).mpr hfil
  · intro p hp
    unfold processKeywordArticles at hp
    by_cases hwe : watchWords.isEmpty
    · rw [if_pos hwe] at hp
      simp at hp
    · rw [if_neg hwe] at hp
      by_cases hemp : (removeDuplicates raw).isEmpty
      · rw [if_pos hemp] at hp
        simp at hp
      · rw [if_neg hemp] at hp
        obtain ⟨q, hq, hf⟩ := List.mem_filterMap.mp hp
        by_cases hqe : q.2.isEmpty
        · rw [if_pos hqe] at hf
          simp at hf
        · rw [if_neg hqe] at hf
          obtain rfl := Option.some.inj hf
          refine ⟨rfl, by simpa [List.isEmpty_iff] using hqe, ?_⟩
          have hchar := filterArticlesByKeywords_mem (removeDuplicates raw)
            watchWords q.1 q.2 (by rwa [Prod.mk.eta])
          rw [hchar]
          exact List.Pairwise.sublist (List.filter_sublist _) hdist

/-- C9 witness: a concrete bucket from each processor satisfies the
invariant. -/
theorem c9_bucket_invariant_witness :
    (("tech", (⟨[mkArticle "a" "l1" (some 3)], "s", 1⟩ : Bucket)).2.count =
        [mkArticle "a" "l1" (some 3)].length ∧
      [mkArticle "a" "l1" (some 3)] ≠ ([] : List Article) ∧
      List.Pairwise (fun x y => dedupKey x ≠ dedupKey y)
        [mkArticle "a" "l1" (some 3)]) :=
  (c9_bucket_invariant (fun _ _ => "s") (fun _ _ => "s") "tech" ["a"]
    [mkArticle "a" "l1" (some 3)]).1
    ("tech", ⟨[mkArticle "a" "l1" (some 3)], "s", 1⟩) (by decide)

/-- C10: the dedup key `title + "_" + link` conflates distinct
(title, link) pairs: the records ("a_b", "c") and ("a", "b_c") are distinct
as pairs yet share the key "a_b_c", so `removeDuplicates` drops the second
even though it is not a duplicate of the first. -/
theorem c10_dedup_key_not_injective :
    ((mkArticle "a_b" "c" (some 0)).title, (mkArticle "a_b" "c" (some 0)).link) ≠
      ((mkArticle "a" "b_c" (some 0)).title, (mkArticle "a" "b_c" (some 0)).link) ∧
    dedupKey (mkArticle "a_b" "c" (some 0)) =
      dedupKey (mkArticle "a" "b_c" (some 0)) ∧
    removeDuplicates [mkArticle "a_b" "c" (some 0), mkArticle "a" "b_c" (some 0)] =
      [mkArticle "a_b" "c" (some 0)] ∧
    (removeDuplicates [mkArticle "a_b" "c" (some 0),
      mkArticle "a" "b_c" (some 0)]).length <
      [mkArticle "a_b" "c" (some 0), mkArticle "a" "b_c" (some 0)].length := by
  exact ⟨by decide, by decide, by decide, by decide⟩
